import Mathlib

/-
Verification of the SmartArray repository (src/SmartArray.h, src/example.cpp):
a shallow embedding of `SmartArray<T>` and `SmartArrayReverse<T>` together
with theorems settling the specification claims.

Modelling conventions
=====================
* The C++ buffer `T* m_data` is modelled as `Option (List (Option T))`:
  `none` is a null (or freed/dangling) pointer, `some buf` a live allocation
  of exactly `buf.length` cells.  A cell `none` is an indeterminate value
  (memory produced by a non-value-initializing `new T[n]`, or bytes read
  past the end of an allocation); a cell `some v` holds the value `v`.
* `size_t` is modelled as `Nat`, `int` as `Int`.  The implicit conversions
  in `checkIndexOrSize` (an `int` compared against a `size_t`, so both are
  converted to the 64-bit unsigned type) are modelled exactly, modulo 2^64.
* Reading heap memory out of bounds of a live allocation yields an
  indeterminate cell; reading through a null pointer, writing out of
  bounds, or passing a huge (wrapped-around) size to `new` is modelled as
  the crashing outcome `fatal`.
* `std::ceil(length * 1.125)` is modelled as `(9 * L + 7) / 8` on `Nat`:
  1.125 = 9/8 is a dyadic rational and for `L < 2^31` the double
  computation `L * 1.125` is exact, so the ceiling of the real quotient
  equals the Nat expression.
-/

set_option maxHeartbeats 1000000
set_option linter.unusedVariables false

/-- 2^64, the modulus of `size_t` arithmetic. -/
def USIZE : Nat := 2 ^ 64

/-- The value of an `int` after the usual arithmetic conversion to `size_t`
(sign extension followed by reinterpretation, i.e. reduction mod 2^64). -/
def toUnsigned (i : Int) : Nat := (i % (USIZE : Int)).toNat

/-- SmartArray.h line 65: the condition of `checkIndexOrSize`,
`index < -length && index >= length`, evaluated with C++ conversion rules:
`length` is `size_t`, so `-length` is `(2^64 - length) % 2^64` and `index`
is converted to `size_t` on both comparisons. -/
def checkFails (L : Nat) (i : Int) : Bool :=
  decide (toUnsigned i < (USIZE - L % USIZE) % USIZE) && decide (L % USIZE ≤ toUnsigned i)

/-- SmartArray.h line 91: `std::ceil(length * 1.125)` with exact 9/8
arithmetic (exact in `double` for `L < 2^31`). -/
def growSize (L : Nat) : Nat := (9 * L + 7) / 8

/-- The state of a `SmartArray<T>` object: the `m_data` pointer and the
`length` field (SmartArray.h lines 16 and 37). -/
structure SmartArray (T : Type) where
  m_data : Option (List (Option T))
  length : Nat
deriving DecidableEq

/-- The cells behind a `std::copy(src, src + n, dst)` whose source is the
buffer `buf`: cell `i` is `buf`'s cell `i` when `i` is inside the
allocation and an indeterminate value when the copy reads past its end. -/
def readList {T : Type} (buf : List (Option T)) (n : Nat) : List (Option T) :=
  (List.range n).map (fun i => (buf[i]?).join)

/-- A sequence of raw stores `buf[start] = v0; buf[start+1] = v1; ...`.
Returns `none` (heap corruption) if any store lands outside the
allocation. -/
def storeList {T : Type} : List (Option T) → Nat → List (Option T) → Option (List (Option T))
  | buf, _, [] => some buf
  | buf, start, v :: vs =>
    if start < buf.length then storeList (buf.set start v) (start + 1) vs else none

/-- Result of an operation returning no value: the successful post-state,
the post-state after `checkIndexOrSize` reported an out-of-bounds index
(SmartArray.h lines 64-70: it does `delete[] m_data`, prints the error and
executes a bare `throw`), or a crash (`fatal`) from undefined behavior. -/
inductive Outcome (T : Type) where
  | ok (a : SmartArray T)
  | indexError (a : SmartArray T)
  | fatal
deriving DecidableEq

/-- Result of `operator[]` (SmartArray.h lines 151-155): the value read
through the returned reference together with the (unchanged) container, or
the out-of-bounds/crash outcomes. -/
inductive GetOutcome (T : Type) where
  | ok (val : Option T) (a : SmartArray T)
  | indexError (a : SmartArray T)
  | fatal
deriving DecidableEq

/-- Result of `to_arr` (SmartArray.h lines 134-144): the returned pointer
(`none` models a NULL return, `some l` a fresh allocation holding `l`)
together with the container, or the out-of-bounds/crash outcomes. -/
inductive ToArrOutcome (T : Type) where
  | ok (ret : Option (List (Option T))) (a : SmartArray T)
  | indexError (a : SmartArray T)
  | fatal
deriving DecidableEq

namespace SmartArray

variable {T : Type}

/-- The cells of the buffer (empty for a null pointer). -/
def cells (a : SmartArray T) : List (Option T) :=
  match a.m_data with
  | some buf => buf
  | none => []

/-- Well-formedness: a live buffer holds exactly `length` cells; a null
`m_data` only occurs with `length = 0` (the default constructor,
SmartArray.h lines 44-47, or after `erase`).  Stated via `cells` (which is
`[]` for a null pointer) so that it is decidable on concrete containers. -/
def Wf (a : SmartArray T) : Prop :=
  (cells a).length = a.length

instance (a : SmartArray T) : Decidable a.Wf :=
  inferInstanceAs (Decidable ((cells a).length = a.length))

/-- A well-formed container holding exactly the values `l`
(as produced by `from_arr` on a sized container, for instance). -/
def ofList (l : List T) : SmartArray T :=
  ⟨some (l.map some), l.length⟩

/-- The sized constructor (SmartArray.h lines 50-52):
`m_data = new T[length]{}` value-initializes every cell. -/
def sizedCtor [Inhabited T] (n : Nat) : SmartArray T :=
  ⟨some (List.replicate n (some (default : T))), n⟩

/-- SmartArray.h lines 21-34, `resize(new_sz)`:
`new_sz == 0` calls `erase()` (sets `m_data = NULL`, `length = 0`, without
freeing).  Otherwise it allocates `new T[new_sz]`, does
`std::copy(m_data, m_data + new_sz, arr)` — reading `new_sz` cells from the
old buffer, past its end when growing — frees the old buffer and installs
the new one with `length = new_sz`.  A null `m_data` makes the copy read
through a null pointer: `fatal`. -/
def resize (a : SmartArray T) (new_sz : Nat) : Outcome T :=
  if new_sz = 0 then Outcome.ok ⟨none, 0⟩
  else
    match a.m_data with
    | none => Outcome.fatal
    | some buf => Outcome.ok ⟨some (readList buf new_sz), new_sz⟩

/-- The offsets into the old buffer read by the `std::copy` of `resize`
(SmartArray.h line 29, `std::copy(m_data, m_data + new_sz, arr)`): all of
`0, ..., new_sz - 1`, regardless of the old length. -/
def resizeReads (new_sz : Nat) : List Nat :=
  if new_sz = 0 then [] else List.range new_sz

/-- SmartArray.h lines 87-95, `put(input, index = -1)`:
bounds check, then `resize(ceil(length * 1.125))`, then
`index = index < 0 ? old_length + 1 + index : index` and
`m_data[index] = input`.  A store through a null pointer or outside the
allocation is `fatal`. -/
def put (a : SmartArray T) (input : T) (index : Int) : Outcome T :=
  if checkFails a.length index then Outcome.indexError ⟨none, a.length⟩
  else
    let old_length := a.length
    match a.resize (growSize a.length) with
    | Outcome.ok a1 =>
      let idx : Int := if index < 0 then (old_length : Int) + 1 + index else index
      match a1.m_data with
      | none => Outcome.fatal
      | some buf =>
        if 0 ≤ idx ∧ idx.toNat < buf.length then
          Outcome.ok ⟨some (buf.set idx.toNat (some input)), a1.length⟩
        else Outcome.fatal
    | r => r

/-- SmartArray.h lines 96-98: `append(input)` is `put(input)` with the
default index `-1`. -/
def append (a : SmartArray T) (input : T) : Outcome T := a.put input (-1)

/-- SmartArray.h lines 100-106, `pop(index = -1)`: bounds check, resolve
`index = index < 0 ? length + 1 + index : index`, a stray scalar
`delete (m_data + index)` — undefined behavior that frees no valid
allocation and is modelled as leaving the abstract cells unchanged — then
`resize(length - 1)`.  With `length == 0` the `size_t` subtraction wraps
around and `new T[2^64 - 1]` aborts: `fatal`. -/
def pop (a : SmartArray T) (index : Int) : Outcome T :=
  if checkFails a.length index then Outcome.indexError ⟨none, a.length⟩
  else if a.length = 0 then Outcome.fatal
  else a.resize (a.length - 1)

/-- SmartArray.h lines 116-122, `from_arr(arr, arr_len)`:
`resize(arr_len)` followed by the loop `m_data[i] = arr[i]` for
`0 <= i < arr_len` (raw stores, no bounds check). -/
def from_arr (a : SmartArray T) (arr : List T) : Outcome T :=
  match a.resize arr.length with
  | Outcome.ok a1 =>
    match a1.m_data with
    | none => if arr.length = 0 then Outcome.ok a1 else Outcome.fatal
    | some buf =>
      match storeList buf 0 (arr.map some) with
      | some buf2 => Outcome.ok ⟨some buf2, a1.length⟩
      | none => Outcome.fatal
  | r => r

/-- SmartArray.h lines 134-144, `to_arr(new_sz = -1)`: bounds check on
`new_sz`, a NULL return for `new_sz == 0`, otherwise
`new_sz = length + new_sz` for negative `new_sz` (in `size_t` arithmetic;
a negative result wraps to a huge allocation: `fatal`), then
`new T[new_sz]` and `std::copy(m_data, m_data + new_sz, new_array)` —
reading through `m_data` (a null pointer is `fatal` unless zero cells are
copied, cells past the end are indeterminate). -/
def to_arr (a : SmartArray T) (new_sz : Int) : ToArrOutcome T :=
  if checkFails a.length new_sz then ToArrOutcome.indexError ⟨none, a.length⟩
  else if new_sz = 0 then ToArrOutcome.ok none a
  else
    let n : Int := if new_sz < 0 then (a.length : Int) + new_sz else new_sz
    if 0 ≤ n then
      match a.m_data with
      | none => if n = 0 then ToArrOutcome.ok (some []) a else ToArrOutcome.fatal
      | some buf => ToArrOutcome.ok (some (readList buf n.toNat)) a
    else ToArrOutcome.fatal

/-- SmartArray.h lines 151-155, `operator[](index)`: bounds check,
`if (index < 0) index = length + index`, then a reference to
`m_data[index]`; the model returns the value read through it.  A negative
resolved offset or a null `m_data` dereference is `fatal`; a read past the
end of the allocation yields an indeterminate value. -/
def opIndex (a : SmartArray T) (index : Int) : GetOutcome T :=
  if checkFails a.length index then GetOutcome.indexError ⟨none, a.length⟩
  else
    let idx : Int := if index < 0 then (a.length : Int) + index else index
    match a.m_data with
    | none => GetOutcome.fatal
    | some buf =>
      if 0 ≤ idx then GetOutcome.ok ((buf[idx.toNat]?).join) a
      else GetOutcome.fatal

/-- SmartArray.h lines 162-168, `operator+(other)` (concat):
`resize(length + other.length)` then
`std::copy(other.m_data, other.m_data + old_length, m_data + old_length)` —
note: it copies `old_length` (the first operand's old length) cells of
`other`, not `other.length` of them.  The second operand is only read. -/
def opPlus (a b : SmartArray T) : Outcome T :=
  let old_length := a.length
  match a.resize (a.length + b.length) with
  | Outcome.ok a1 =>
    if old_length = 0 then Outcome.ok a1
    else
      match b.m_data with
      | none => Outcome.fatal
      | some bbuf =>
        match a1.m_data with
        | none => Outcome.fatal
        | some buf =>
          match storeList buf old_length (readList bbuf old_length) with
          | some buf2 => Outcome.ok ⟨some buf2, a1.length⟩
          | none => Outcome.fatal
  | r => r

/-- SmartArray.h lines 58-61, the copy constructor: `m_data` is a fresh
`new T[length]` (indeterminate cells) fully overwritten by
`std::copy(other.m_data, other.m_data + other.length, m_data)`.  A null
source of positive length makes the copy read through null: `none`
(fatal). -/
def copyCtor (src : SmartArray T) : Option (SmartArray T) :=
  match src.m_data with
  | none => if src.length = 0 then some ⟨some [], 0⟩ else none
  | some buf => some ⟨some (readList buf src.length), src.length⟩

end SmartArray

namespace SmartArray

variable {T : Type}

/-- SmartArray.h lines 189-191, the body of the loop in
`SmartArrayReverse::reverse`: for `i = 0, ..., iter.length - 1` it executes
`buffer[-i-1] = iter[i]`, both accesses going through `operator[]` and its
bounds check (`-i-1` is a `size_t` expression narrowed to the `int`
parameter, which for `i + 1 <= 2^31` yields `-(i+1)`).  `buf` is the state
of `buffer`'s cells, `r` the number of iterations left. -/
def revLoopAux (iterBuf : List (Option T)) : List (Option T) → Nat → Nat → Option (List (Option T))
  | buf, _, 0 => some buf
  | buf, i, r + 1 =>
    if checkFails buf.length (-((i : Int) + 1)) then none
    else if checkFails iterBuf.length (i : Int) then none
    else
      let widx : Int :=
        if -((i : Int) + 1) < 0 then (buf.length : Int) + (-((i : Int) + 1)) else -((i : Int) + 1)
      if 0 ≤ widx ∧ widx.toNat < buf.length then
        revLoopAux iterBuf (buf.set widx.toNat ((iterBuf[i]?).join)) (i + 1) r
      else none

/-- SmartArray.h lines 185-194, `SmartArrayReverse::reverse()`: a local
`SmartArray<T> buffer(iter.length)` (sized constructor, value-initialized
cells), the loop `buffer[-i-1] = iter[i]`, then
`std::copy(buffer.m_data, buffer.m_data + buffer.length, iter.m_data)`
which stores `buffer`'s cells over `iter`'s buffer (raw stores).  The local
`buffer` is destroyed on exit.  `none` models any crash or bounds failure
inside the method. -/
def reverseMethod [Inhabited T] (iter : SmartArray T) : Option (SmartArray T) :=
  match iter.m_data with
  | none => if iter.length = 0 then some iter else none
  | some ibuf =>
    match revLoopAux ibuf (List.replicate iter.length (some (default : T))) 0 iter.length with
    | none => none
    | some rbuf =>
      match storeList ibuf 0 rbuf with
      | some newbuf => some ⟨some newbuf, iter.length⟩
      | none => none

/-- SmartArray.h lines 180-194: constructing a `SmartArrayReverse<T>` from
`arr`.  The constructor parameter is passed by value (one deep copy via the
copy constructor), the member `iter` is copy-initialized from it (a second
deep copy), then `reverse()` runs on `iter`; the by-value parameter is
destroyed when the constructor returns.  The result is the state of the
view's `iter` member; the source container is only ever read. -/
def reverseCtor [Inhabited T] (src : SmartArray T) : Option (SmartArray T) :=
  match copyCtor src with
  | none => none
  | some arr =>
    match copyCtor arr with
    | none => none
    | some iter => reverseMethod iter

end SmartArray


/-
Heap-level model, for the frame/aliasing claim about `SmartArrayReverse`.
Buffers live in an explicit heap; an allocation id is an index into the
heap's list of buffers (`none` marks a freed allocation; ids are never
reused).  The `SmartArray` object itself is a pointer (`ptr`, the modelled
`m_data`) plus the `length` field.  The operations below are the same
source functions as the value-level ones above, with every `new[]`,
`delete[]` and store made explicit against the heap.
-/

/-- The heap: allocation id `p` holds buffer `bufs[p]`; `none` is a freed
allocation.  Fresh ids are appended, so ids are never reused. -/
structure Heap (T : Type) where
  bufs : List (Option (List (Option T)))
deriving DecidableEq

/-- A `SmartArray<T>` object at heap level: the `m_data` pointer (an
allocation id, or `none` for NULL) and the `length` field. -/
structure HArray (T : Type) where
  ptr : Option Nat
  length : Nat
deriving DecidableEq

/-- `new T[...]`: append a fresh buffer, returning the new heap and the
fresh allocation id. -/
def Heap.alloc {T : Type} (h : Heap T) (cells : List (Option T)) : Heap T × Nat :=
  (⟨h.bufs ++ [some cells]⟩, h.bufs.length)

/-- `delete[] p`: mark the allocation freed (`delete[] NULL` is a no-op). -/
def Heap.free {T : Type} (h : Heap T) (p : Option Nat) : Heap T :=
  match p with
  | none => h
  | some q => ⟨h.bufs.set q none⟩

/-- Dereference an allocation id: its buffer, or `none` if freed/invalid. -/
def Heap.read {T : Type} (h : Heap T) (p : Nat) : Option (List (Option T)) :=
  (h.bufs[p]?).join

/-- Overwrite the buffer behind an allocation id. -/
def Heap.write {T : Type} (h : Heap T) (p : Nat) (cells : List (Option T)) : Heap T :=
  ⟨h.bufs.set p (some cells)⟩

/-- Heap-level analogue of `Outcome`: post-heap and post-object, for the
success and bounds-error paths, or a crash. -/
inductive HOutcome (T : Type) where
  | ok (h : Heap T) (a : HArray T)
  | indexError (h : Heap T) (a : HArray T)
  | fatal
deriving DecidableEq

/-- Heap-level `resize` (SmartArray.h lines 21-34): allocate, copy `new_sz`
cells from the old buffer, `delete[]` the old buffer, install the new id. -/
def hResize {T : Type} (h : Heap T) (a : HArray T) (new_sz : Nat) : HOutcome T :=
  if new_sz = 0 then HOutcome.ok h ⟨none, 0⟩
  else
    match a.ptr with
    | none => HOutcome.fatal
    | some p =>
      match h.read p with
      | none => HOutcome.fatal
      | some buf =>
        let h1 := Heap.alloc h (readList buf new_sz)
        HOutcome.ok ((h1.1).free (some p)) ⟨some h1.2, new_sz⟩

/-- Heap-level `put` (SmartArray.h lines 87-95); the failed bounds check
frees the container's buffer (`delete[] m_data`). -/
def hPut {T : Type} (h : Heap T) (a : HArray T) (input : T) (index : Int) : HOutcome T :=
  if checkFails a.length index then HOutcome.indexError (h.free a.ptr) a
  else
    let old_length := a.length
    match hResize h a (growSize a.length) with
    | HOutcome.ok h1 a1 =>
      let idx : Int := if index < 0 then (old_length : Int) + 1 + index else index
      match a1.ptr with
      | none => HOutcome.fatal
      | some p =>
        match h1.read p with
        | none => HOutcome.fatal
        | some buf =>
          if 0 ≤ idx ∧ idx.toNat < buf.length then
            HOutcome.ok (h1.write p (buf.set idx.toNat (some input))) a1
          else HOutcome.fatal
    | r => r

/-- Heap-level `append` (SmartArray.h lines 96-98). -/
def hAppend {T : Type} (h : Heap T) (a : HArray T) (input : T) : HOutcome T :=
  hPut h a input (-1)

/-- Heap-level `pop` (SmartArray.h lines 100-106); the stray scalar
`delete (m_data + index)` frees no valid allocation (undefined behavior,
modelled as a heap no-op). -/
def hPop {T : Type} (h : Heap T) (a : HArray T) (index : Int) : HOutcome T :=
  if checkFails a.length index then HOutcome.indexError (h.free a.ptr) a
  else if a.length = 0 then HOutcome.fatal
  else hResize h a (a.length - 1)

/-- Heap-level `from_arr` (SmartArray.h lines 116-122). -/
def hFromArr {T : Type} (h : Heap T) (a : HArray T) (arr : List T) : HOutcome T :=
  match hResize h a arr.length with
  | HOutcome.ok h1 a1 =>
    match a1.ptr with
    | none => if arr.length = 0 then HOutcome.ok h1 a1 else HOutcome.fatal
    | some p =>
      match h1.read p with
      | none => HOutcome.fatal
      | some buf =>
        match storeList buf 0 (arr.map some) with
        | some buf2 => HOutcome.ok (h1.write p buf2) a1
        | none => HOutcome.fatal
  | r => r

/-- Heap-level `operator+` (SmartArray.h lines 162-168); the second operand
is only read. -/
def hOpPlus {T : Type} (h : Heap T) (a b : HArray T) : HOutcome T :=
  let old_length := a.length
  match hResize h a (a.length + b.length) with
  | HOutcome.ok h1 a1 =>
    if old_length = 0 then HOutcome.ok h1 a1
    else
      match b.ptr with
      | none => HOutcome.fatal
      | some bp =>
        match h1.read bp with
        | none => HOutcome.fatal
        | some bbuf =>
          match a1.ptr with
          | none => HOutcome.fatal
          | some p =>
            match h1.read p with
            | none => HOutcome.fatal
            | some buf =>
              match storeList buf old_length (readList bbuf old_length) with
              | some buf2 => HOutcome.ok (h1.write p buf2) a1
              | none => HOutcome.fatal
  | r => r

/-- Heap-level copy constructor (SmartArray.h lines 58-61): a fresh
allocation filled from the source; no pointer is shared. -/
def hCopyCtor {T : Type} (h : Heap T) (src : HArray T) : Option (Heap T × HArray T) :=
  match src.ptr with
  | none =>
    if src.length = 0 then
      let h1 := Heap.alloc h []
      some (h1.1, ⟨some h1.2, 0⟩)
    else none
  | some p =>
    match h.read p with
    | none => none
    | some buf =>
      let h1 := Heap.alloc h (readList buf src.length)
      some (h1.1, ⟨some h1.2, src.length⟩)

/-- Heap-level `SmartArrayReverse::reverse` (SmartArray.h lines 185-194):
allocate the local sized `buffer`, run the loop — which reads only `iter`'s
allocation and writes only `buffer`'s, so its net effect on `buffer`'s
cells is `revLoopAux` — copy `buffer` back over `iter`'s allocation, and
free `buffer` when the local object is destroyed. -/
def hReverseMethod {T : Type} [Inhabited T] (h : Heap T) (iter : HArray T) :
    Option (Heap T × HArray T) :=
  let hb := Heap.alloc h (List.replicate iter.length (some (default : T)))
  match iter.ptr with
  | none =>
    if iter.length = 0 then some ((hb.1).free (some hb.2), iter) else none
  | some ip =>
    match (hb.1).read ip with
    | none => none
    | some ibuf =>
      match SmartArray.revLoopAux ibuf (List.replicate iter.length (some (default : T)))
          0 iter.length with
      | none => none
      | some rbuf =>
        match storeList ibuf 0 rbuf with
        | some newbuf => some (((hb.1).write ip newbuf).free (some hb.2), iter)
        | none => none

/-- Heap-level `SmartArrayReverse` constructor (SmartArray.h lines
180-194): the by-value parameter is one deep copy, the `iter` member a
second; `reverse()` runs on `iter`; the by-value parameter's buffer is
freed when the constructor returns. -/
def hReverseCtor {T : Type} [Inhabited T] (h : Heap T) (src : HArray T) :
    Option (Heap T × HArray T) :=
  match hCopyCtor h src with
  | none => none
  | some (h1, arr) =>
    match hCopyCtor h1 arr with
    | none => none
    | some (h2, iter) =>
      match hReverseMethod h2 iter with
      | none => none
      | some (h3, iter2) => some (h3.free arr.ptr, iter2)

/-- A mutation of the source container: the operations named by claim C10. -/
inductive HMut (T : Type) where
  | mput (v : T) (i : Int)
  | mappend (v : T)
  | mpop (i : Int)
  | mfrom (l : List T)
  | mconcat (b : HArray T)
deriving DecidableEq

/-- Apply one mutation to the container `a` in heap `h`. -/
def applyMut {T : Type} (h : Heap T) (a : HArray T) : HMut T → HOutcome T
  | HMut.mput v i => hPut h a v i
  | HMut.mappend v => hAppend h a v
  | HMut.mpop i => hPop h a i
  | HMut.mfrom l => hFromArr h a l
  | HMut.mconcat b => hOpPlus h a b

/-- Run a sequence of mutations; execution stops at the first bounds error
(the error path aborts the program) or crash, keeping the heap reached. -/
def runMuts {T : Type} (h : Heap T) (a : HArray T) : List (HMut T) → Heap T × HArray T
  | [] => (h, a)
  | m :: ms =>
    match applyMut h a m with
    | HOutcome.ok h1 a1 => runMuts h1 a1 ms
    | HOutcome.indexError h1 a1 => (h1, a1)
    | HOutcome.fatal => (h, a)

/-- The reversed cell sequence of a buffer of length `L`:
cell `j` is the source's cell `L - 1 - j`. -/
def revCells {T : Type} (buf : List (Option T)) (L : Nat) : List (Option T) :=
  (List.range L).map (fun j => (buf[L - 1 - j]?).join)

/-- `vp` is a live allocation holding `snap` that the container `a` does
not point to. -/
def Foreign {T : Type} (vp : Nat) (snap : List (Option T)) (h : Heap T) (a : HArray T) : Prop :=
  vp < h.bufs.length ∧ h.read vp = some snap ∧ a.ptr ≠ some vp

/-- The outcome of an operation keeps `vp` alive and untouched: fully
(`Foreign`) on success, at least as a live unchanged allocation on the
(program-aborting) error path. -/
def OutForeign {T : Type} (vp : Nat) (snap : List (Option T)) : HOutcome T → Prop
  | HOutcome.ok h1 a1 => Foreign vp snap h1 a1
  | HOutcome.indexError h1 _ => vp < h1.bufs.length ∧ h1.read vp = some snap
  | HOutcome.fatal => True

/-
Characterization of the bounds check.  Because `length` is unsigned, the
`&&` in `index < -length && index >= length` behaves, for `0 < length`,
exactly like the disjunction `index >= length || index < -length`; for
`length == 0` the left conjunct `index < (size_t)0` is always false, so the
check never fires on an empty container.
-/

theorem checkFails_zero (i : Int) : checkFails 0 i = false := by
  simp [checkFails, USIZE]

theorem checkFails_true (L : Nat) (i : Int) (hL0 : 0 < L) (hL : L < 2 ^ 31)
    (hi1 : -(2 ^ 31) ≤ i) (hi2 : i < 2 ^ 31)
    (hout : (L : Int) ≤ i ∨ i < -(L : Int)) :
    checkFails L i = true := by
  have hmod : (USIZE : Int) = 2 ^ 64 := by norm_num [USIZE]
  have hLu : L % USIZE = L := Nat.mod_eq_of_lt (by simp only [USIZE]; omega)
  have hneg : (USIZE - L) % USIZE = USIZE - L := Nat.mod_eq_of_lt (by simp only [USIZE]; omega)
  simp only [checkFails, toUnsigned, hLu, hneg, Bool.and_eq_true, decide_eq_true_eq, hmod, USIZE]
  omega

theorem checkFails_false (L : Nat) (i : Int) (hL : L < 2 ^ 31)
    (hi1 : -(L : Int) ≤ i) (hi2 : i < (L : Int)) :
    checkFails L i = false := by
  have hmod : (USIZE : Int) = 2 ^ 64 := by norm_num [USIZE]
  have hLu : L % USIZE = L := Nat.mod_eq_of_lt (by simp only [USIZE]; omega)
  simp only [checkFails, toUnsigned, hLu, Bool.and_eq_false_iff, decide_eq_false_iff_not, not_lt,
    not_le, hmod, USIZE]
  omega

/- Basic facts about `readList` and `storeList`. -/

theorem readList_length {T : Type} (buf : List (Option T)) (n : Nat) :
    (readList buf n).length = n := by
  simp [readList]

theorem readList_getElem? {T : Type} (buf : List (Option T)) {n j : Nat} (h : j < n) :
    (readList buf n)[j]? = some ((buf[j]?).join) := by
  simp [readList, List.getElem?_map, List.getElem?_range h]

theorem readList_getElem?_ge {T : Type} (buf : List (Option T)) {n j : Nat} (h : n ≤ j) :
    (readList buf n)[j]? = none :=
  List.getElem?_eq_none (by simpa [readList_length] using h)

theorem readList_eq_take {T : Type} (buf : List (Option T)) {n : Nat} (h : n ≤ buf.length) :
    readList buf n = buf.take n := by
  apply List.ext_getElem?
  intro j
  by_cases hj : j < n
  · have hjb : j < buf.length := lt_of_lt_of_le hj h
    rw [readList_getElem? buf hj, List.getElem?_take, if_pos hj, List.getElem?_eq_getElem hjb]
    simp
  · rw [readList_getElem?_ge buf (le_of_not_lt hj), List.getElem?_take, if_neg hj]

theorem readList_full {T : Type} (buf : List (Option T)) :
    readList buf buf.length = buf := by
  rw [readList_eq_take buf (le_refl _), List.take_length]

theorem storeList_total {T : Type} (vals : List (Option T)) :
    ∀ (buf : List (Option T)) (start : Nat), start + vals.length ≤ buf.length →
    ∃ res, storeList buf start vals = some res ∧ res.length = buf.length ∧
      ∀ j : Nat, res[j]? =
        if start ≤ j ∧ j < start + vals.length then vals[j - start]? else buf[j]? := by
  induction vals with
  | nil =>
    intro buf start _
    refine ⟨buf, rfl, rfl, ?_⟩
    intro j
    simp only [List.length_nil]
    rw [if_neg (by omega)]
  | cons v vs ih =>
    intro buf start h
    have hstart : start < buf.length := by
      simp only [List.length_cons] at h; omega
    obtain ⟨res, h1, h2, h3⟩ :=
      ih (buf.set start v) (start + 1) (by simp only [List.length_set, List.length_cons] at h ⊢; omega)
    refine ⟨res, ?_, by simpa using h2, ?_⟩
    · simp [storeList, hstart, h1]
    · intro j
      rw [h3 j]
      by_cases hj : start + 1 ≤ j ∧ j < start + 1 + vs.length
      · rw [if_pos hj, if_pos (by simp only [List.length_cons]; omega)]
        have hsub : j - start = (j - (start + 1)) + 1 := by omega
        rw [hsub]
        simp
      · rw [if_neg hj]
        by_cases hje : j = start
        · subst hje
          rw [if_pos (by simp only [List.length_cons]; omega)]
          rw [List.getElem?_set, if_pos rfl, if_pos hstart]
          simp
        · rw [if_neg (by simp only [List.length_cons]; omega)]
          rw [List.getElem?_set_ne (by omega)]

theorem storeList_full {T : Type} (buf vals : List (Option T)) (h : vals.length = buf.length) :
    storeList buf 0 vals = some vals := by
  obtain ⟨res, h1, h2, h3⟩ := storeList_total vals buf 0 (by omega)
  rw [h1]
  congr 1
  apply List.ext_getElem?
  intro j
  rw [h3 j]
  by_cases hj : j < vals.length
  · rw [if_pos (by omega)]
    simp
  · rw [if_neg (by omega), List.getElem?_eq_none (by omega), List.getElem?_eq_none (by omega)]

/-- A well-formed container of positive length has a live buffer of exactly
that many cells. -/
theorem wf_buf {T : Type} {a : SmartArray T} (hwf : a.Wf) (h0 : 0 < a.length) :
    ∃ buf, a.m_data = some buf ∧ buf.length = a.length ∧ SmartArray.cells a = buf := by
  unfold SmartArray.Wf at hwf
  match hm : a.m_data with
  | some buf =>
    refine ⟨buf, rfl, ?_, by simp [SmartArray.cells, hm]⟩
    rw [show SmartArray.cells a = buf from by simp [SmartArray.cells, hm]] at hwf
    exact hwf
  | none =>
    rw [show SmartArray.cells a = [] from by simp [SmartArray.cells, hm]] at hwf
    simp at hwf
    omega

/-- C9: `operator[]` with a valid non-negative index `j < length` returns
the value stored at forward position `j` and leaves the container
unchanged, and for a valid negative index `i` (`-length <= i < 0`) it
returns exactly what `operator[]` returns at `length + i`. -/
theorem C9_get {T : Type} (a : SmartArray T) (hwf : a.Wf) (hL : a.length < 2 ^ 31) :
    (∀ j : Nat, j < a.length →
      a.opIndex (j : Int) = GetOutcome.ok (((SmartArray.cells a)[j]?).join) a) ∧
    (∀ i : Int, -(a.length : Int) ≤ i → i < 0 →
      a.opIndex i = a.opIndex ((a.length : Int) + i)) := by
  constructor
  · intro j hj
    obtain ⟨buf, hm, hlen, hcells⟩ := wf_buf hwf (by omega)
    have hcf : checkFails a.length (j : Int) = false :=
      checkFails_false a.length (j : Int) hL (by omega) (by exact_mod_cast hj)
    simp [SmartArray.opIndex, hcf, hm, hcells, show ¬((j : Int) < 0) from by omega,
      show (0 : Int) ≤ (j : Int) from by omega, Int.toNat_natCast]
  · intro i hi1 hi2
    have hL0 : 0 < a.length := by omega
    obtain ⟨buf, hm, hlen, hcells⟩ := wf_buf hwf hL0
    have hcf1 : checkFails a.length i = false :=
      checkFails_false a.length i hL hi1 (by omega)
    have hcf2 : checkFails a.length ((a.length : Int) + i) = false :=
      checkFails_false a.length ((a.length : Int) + i) hL (by omega) (by omega)
    simp [SmartArray.opIndex, hcf1, hcf2, hm, hi2, if_neg (by omega : ¬ ((a.length : Int) + i < 0)),
      if_pos (by omega : (0 : Int) ≤ (a.length : Int) + i)]

/-- C9 witness: reading index -1 of a concrete two-element container
agrees with reading index `2 + (-1)`, via the theorem. -/
theorem C9_witness :
    (⟨some [some 10, some 20], 2⟩ : SmartArray Int).opIndex (-1) =
      (⟨some [some 10, some 20], 2⟩ : SmartArray Int).opIndex (((2 : Nat) : Int) + (-1)) :=
  (C9_get (⟨some [some 10, some 20], 2⟩ : SmartArray Int) (by decide) (by decide)).2
    (-1) (by decide) (by decide)

/-- C8: on a non-empty container, `pop(-1)` succeeds, the length decreases
by exactly one, and the remaining cells are the first `length - 1` original
cells (truncation from the end; no shifting).  The stray scalar
`delete (m_data + index)` of SmartArray.h line 104 is undefined behavior
that does not alter the abstract cell contents in this model. -/
theorem C8_pop {T : Type} (a : SmartArray T) (hwf : a.Wf) (h0 : 0 < a.length)
    (hL : a.length < 2 ^ 31) :
    ∃ a1, a.pop (-1) = Outcome.ok a1 ∧ a1.length = a.length - 1 ∧
      SmartArray.cells a1 = (SmartArray.cells a).take (a.length - 1) := by
  obtain ⟨buf, hm, hlen, hcells⟩ := wf_buf hwf h0
  rw [SmartArray.pop, checkFails_false a.length (-1) hL (by omega) (by omega)]
  rw [if_neg (by simp), if_neg (by omega : ¬ (a.length = 0))]
  rw [SmartArray.resize]
  by_cases h1 : a.length - 1 = 0
  · rw [if_pos h1]
    refine ⟨⟨none, 0⟩, rfl, ?_, ?_⟩
    · show 0 = a.length - 1
      omega
    · show SmartArray.cells ⟨none, 0⟩ = (SmartArray.cells a).take (a.length - 1)
      rw [h1, List.take_zero]
      rfl
  · rw [if_neg h1, hm]
    refine ⟨⟨some (readList buf (a.length - 1)), a.length - 1⟩, rfl, rfl, ?_⟩
    rw [hcells]
    show readList buf (a.length - 1) = buf.take (a.length - 1)
    exact readList_eq_take buf (by omega)

/-- C8 witness: popping the last element of a concrete three-element
container through the theorem. -/
theorem C8_witness :
    ∃ a1, (⟨some [some 1, some 2, some 3], 3⟩ : SmartArray Int).pop (-1) = Outcome.ok a1 ∧
      a1.length = 3 - 1 ∧
      SmartArray.cells a1 = (SmartArray.cells
        (⟨some [some 1, some 2, some 3], 3⟩ : SmartArray Int)).take (3 - 1) :=
  C8_pop (⟨some [some 1, some 2, some 3], 3⟩ : SmartArray Int) (by decide) (by decide) (by decide)

/-- C1 counterexample: on the container `{1, 2, 3}` the out-of-range access
`operator[](5)` does report an out-of-bounds index, but the error path has
freed the buffer (`delete[] m_data`, SmartArray.h line 66): the post-state
no longer holds the original storage, refuting the claim that the
container's length and contents are unchanged after the failed call. -/
theorem C1_counterexample :
    (⟨some [some 1, some 2, some 3], 3⟩ : SmartArray Int).opIndex 5 =
      GetOutcome.indexError ⟨none, 3⟩ ∧
    (⟨none, 3⟩ : SmartArray Int).m_data ≠
      (⟨some [some 1, some 2, some 3], 3⟩ : SmartArray Int).m_data := by
  constructor
  · decide
  · decide

/-- C1 amended: for a well-formed container with `0 < length < 2^31` and
any `int` index `i` with `i >= length` or `i < -length`, each access
operation (`operator[]`, `put`, `pop`, `to_arr`) fails with the
index-out-of-bounds error; the post-state keeps the old `length` but its
storage has been freed by the error path (`m_data` dangling, modelled as
`none`).  On an empty container (`length == 0`) the bounds check never
fires for any index at all, so no access fails with IndexOutOfBounds. -/
theorem C1_amended {T : Type} (a : SmartArray T) (v : T) (i : Int)
    (hwf : a.Wf) (h0 : 0 < a.length) (hL : a.length < 2 ^ 31)
    (hi1 : -(2 ^ 31) ≤ i) (hi2 : i < 2 ^ 31)
    (hout : (a.length : Int) ≤ i ∨ i < -(a.length : Int)) :
    a.opIndex i = GetOutcome.indexError ⟨none, a.length⟩ ∧
    a.put v i = Outcome.indexError ⟨none, a.length⟩ ∧
    a.pop i = Outcome.indexError ⟨none, a.length⟩ ∧
    a.to_arr i = ToArrOutcome.indexError ⟨none, a.length⟩ ∧
    ∀ i2 : Int, checkFails 0 i2 = false := by
  have hc : checkFails a.length i = true := checkFails_true a.length i h0 hL hi1 hi2 hout
  refine ⟨?_, ?_, ?_, ?_, checkFails_zero⟩
  · rw [SmartArray.opIndex, if_pos (by rw [hc])]
  · rw [SmartArray.put, if_pos (by rw [hc])]
  · rw [SmartArray.pop, if_pos (by rw [hc])]
  · rw [SmartArray.to_arr, if_pos (by rw [hc])]

/-- C1 witness: the amended claim at the container `{1, 2, 3}`, index 5. -/
theorem C1_witness :
    (⟨some [some 1, some 2, some 3], 3⟩ : SmartArray Int).opIndex 5 =
      GetOutcome.indexError ⟨none, 3⟩ ∧
    (⟨some [some 1, some 2, some 3], 3⟩ : SmartArray Int).put 7 5 =
      Outcome.indexError ⟨none, 3⟩ ∧
    (⟨some [some 1, some 2, some 3], 3⟩ : SmartArray Int).pop 5 =
      Outcome.indexError ⟨none, 3⟩ ∧
    (⟨some [some 1, some 2, some 3], 3⟩ : SmartArray Int).to_arr 5 =
      ToArrOutcome.indexError ⟨none, 3⟩ ∧
    ∀ i2 : Int, checkFails 0 i2 = false :=
  C1_amended (⟨some [some 1, some 2, some 3], 3⟩ : SmartArray Int) 7 5 (by decide) (by decide)
    (by decide) (by decide) (by decide) (Or.inl (by decide))

/-- The growth step strictly increases a positive length. -/
theorem growSize_gt {L : Nat} (h0 : 0 < L) : L < growSize L := by
  simp only [growSize]
  omega

/-- For lengths 1 through 8, `ceil(L * 1.125)` is exactly `L + 1`. -/
theorem growSize_le8 {L : Nat} (h0 : 0 < L) (h8 : L ≤ 8) : growSize L = L + 1 := by
  simp only [growSize]
  omega

/-- C2 amended: on a well-formed container with `0 < length < 2^31`,
`append(v)` succeeds and sets the length to `ceil(length * 1.125)` (which
is `length + 1` exactly when `length <= 8`), preserves the first `length`
cells, writes `v` at position `length`, and leaves every further slot (for
`length >= 9` there is at least one) indeterminate; on an empty container
the first append does NOT succeed: `ceil(0 * 1.125) = 0` is not
special-cased, `resize(0)` erases the container and the subsequent store
`m_data[0] = input` dereferences a null pointer (a crash, with length
still 0). -/
theorem C2_amended {T : Type} (a : SmartArray T) (v : T) (hwf : a.Wf) (h0 : 0 < a.length)
    (hL : a.length < 2 ^ 31) :
    (∃ a1, a.append v = Outcome.ok a1 ∧ a1.length = growSize a.length ∧
      (∀ j : Nat, j < a.length → (SmartArray.cells a1)[j]? = (SmartArray.cells a)[j]?) ∧
      (SmartArray.cells a1)[a.length]? = some (some v) ∧
      (∀ j : Nat, a.length < j → j < growSize a.length → (SmartArray.cells a1)[j]? = some none) ∧
      (a.length ≤ 8 → growSize a.length = a.length + 1)) ∧
    SmartArray.append (⟨none, 0⟩ : SmartArray T) v = Outcome.fatal := by
  obtain ⟨buf, hm, hlen, hcells⟩ := wf_buf hwf h0
  have hg := growSize_gt h0
  constructor
  · have hcf : checkFails a.length (-1) = false :=
      checkFails_false a.length (-1) hL (by omega) (by omega)
    refine ⟨⟨some ((readList buf (growSize a.length)).set a.length (some v)),
      growSize a.length⟩, ?_, rfl, ?_, ?_, ?_, fun h8 => growSize_le8 h0 h8⟩
    · simp [SmartArray.append, SmartArray.put, hcf, SmartArray.resize, hm,
        show ¬ (growSize a.length = 0) from by omega,
        show ((a.length : Int) + 1 + -1).toNat = a.length from by omega,
        show (0 : Int) ≤ (a.length : Int) + 1 + -1 from by omega,
        readList_length]
      omega
    · intro j hj
      show ((readList buf (growSize a.length)).set a.length (some v))[j]? =
        (SmartArray.cells a)[j]?
      rw [List.getElem?_set_ne (by omega), readList_getElem? buf (by omega), hcells,
        List.getElem?_eq_getElem (by omega : j < buf.length)]
      simp
    · show ((readList buf (growSize a.length)).set a.length (some v))[a.length]? = some (some v)
      rw [List.getElem?_set, if_pos rfl, if_pos (by rw [readList_length]; omega)]
    · intro j hj1 hj2
      show ((readList buf (growSize a.length)).set a.length (some v))[j]? = some none
      rw [List.getElem?_set_ne (by omega), readList_getElem? buf hj2,
        List.getElem?_eq_none (by omega)]
      rfl
  · simp [SmartArray.append, SmartArray.put, checkFails_zero, SmartArray.resize, growSize]

/-- C2 witness: the amended claim at the one-element container `{5}` with
appended value 6. -/
theorem C2_witness :
    (∃ a1, (⟨some [some 5], 1⟩ : SmartArray Int).append 6 = Outcome.ok a1 ∧
      a1.length = growSize 1 ∧
      (∀ j : Nat, j < 1 → (SmartArray.cells a1)[j]? =
        (SmartArray.cells (⟨some [some 5], 1⟩ : SmartArray Int))[j]?) ∧
      (SmartArray.cells a1)[1]? = some (some 6) ∧
      (∀ j : Nat, 1 < j → j < growSize 1 → (SmartArray.cells a1)[j]? = some none) ∧
      (1 ≤ 8 → growSize 1 = 1 + 1)) ∧
    SmartArray.append (⟨none, 0⟩ : SmartArray Int) 6 = Outcome.fatal :=
  C2_amended (⟨some [some 5], 1⟩ : SmartArray Int) 6 (by decide) (by decide) (by decide)

/-- C2 counterexample: appending 42 to a well-formed nine-element container
yields length 11, not 10 — `append` does not increase `length` by exactly
1 (the buffer is resized to `ceil(9 * 1.125) = 11` and `length` is the
buffer size), refuting the claim. -/
theorem C2_counterexample :
    SmartArray.append
      (⟨some [some 1, some 2, some 3, some 4, some 5, some 6, some 7, some 8, some 9], 9⟩ :
        SmartArray Int) 42 =
      Outcome.ok ⟨some [some 1, some 2, some 3, some 4, some 5, some 6, some 7, some 8, some 9,
        some 42, none], 11⟩ ∧
    (⟨some [some 1, some 2, some 3, some 4, some 5, some 6, some 7, some 8, some 9,
        some 42, none], 11⟩ : SmartArray Int).length ≠ 9 + 1 := by
  constructor
  · decide
  · decide

/-- C6 amended: for a valid negative index `i` (`-length <= i < 0`),
`put(v, i)` resolves `i` to `old_length + 1 + i` computed against the
pre-growth length (SmartArray.h line 93) — one slot to the right of the
slot `get(i)` referred to before the insertion, not `old_length + i` as
claimed — writes `v` there, and leaves every other slot below the old
length (in particular the slot `old_length + i` that `get(i)` denoted)
unchanged. -/
theorem C6_amended {T : Type} (a : SmartArray T) (v : T) (i : Int) (hwf : a.Wf)
    (h0 : 0 < a.length) (hL : a.length < 2 ^ 31)
    (hi1 : -(a.length : Int) ≤ i) (hi2 : i < 0) :
    ∃ a1, a.put v i = Outcome.ok a1 ∧ a1.length = growSize a.length ∧
      (SmartArray.cells a1)[((a.length : Int) + 1 + i).toNat]? = some (some v) ∧
      ∀ j : Nat, j < a.length → (j : Int) ≠ (a.length : Int) + 1 + i →
        (SmartArray.cells a1)[j]? = (SmartArray.cells a)[j]? := by
  obtain ⟨buf, hm, hlen, hcells⟩ := wf_buf hwf h0
  have hg := growSize_gt h0
  have hcf : checkFails a.length i = false := checkFails_false a.length i hL hi1 (by omega)
  refine ⟨⟨some ((readList buf (growSize a.length)).set ((a.length : Int) + 1 + i).toNat (some v)),
    growSize a.length⟩, ?_, rfl, ?_, ?_⟩
  · simp [SmartArray.put, hcf, SmartArray.resize, hm,
      show ¬ (growSize a.length = 0) from by omega, hi2,
      show (0 : Int) ≤ (a.length : Int) + 1 + i from by omega,
      show ((a.length : Int) + 1 + i).toNat < (readList buf (growSize a.length)).length from by
        rw [readList_length]; omega]
  · show ((readList buf (growSize a.length)).set ((a.length : Int) + 1 + i).toNat
      (some v))[((a.length : Int) + 1 + i).toNat]? = some (some v)
    rw [List.getElem?_set, if_pos rfl, if_pos (by rw [readList_length]; omega)]
  · intro j hj hne
    show ((readList buf (growSize a.length)).set ((a.length : Int) + 1 + i).toNat
      (some v))[j]? = (SmartArray.cells a)[j]?
    rw [List.getElem?_set_ne (by omega), readList_getElem? buf (by omega), hcells,
      List.getElem?_eq_getElem (by omega : j < buf.length)]
    simp

/-- C6 counterexample: on `{1, 2, 3}`, `put(99, -2)` writes slot
`3 + 1 - 2 = 2` (the result is `{1, 2, 99, junk}` of length 4); slot
`length + i = 1` — the slot `get(-2)` referred to before the insertion —
does not receive 99, refuting the claim. -/
theorem C6_counterexample :
    SmartArray.put (⟨some [some 1, some 2, some 3], 3⟩ : SmartArray Int) 99 (-2) =
      Outcome.ok ⟨some [some 1, some 2, some 99, none], 4⟩ ∧
    (SmartArray.cells (⟨some [some 1, some 2, some 99, none], 4⟩ : SmartArray Int))[1]? ≠
      some (some 99) := by
  constructor
  · decide
  · decide

/-- C6 witness: the amended claim at `{1, 2, 3}` with `put(99, -2)`. -/
theorem C6_witness :
    ∃ a1, (⟨some [some 1, some 2, some 3], 3⟩ : SmartArray Int).put 99 (-2) = Outcome.ok a1 ∧
      a1.length = growSize 3 ∧
      (SmartArray.cells a1)[(((3 : Nat) : Int) + 1 + (-2)).toNat]? = some (some 99) ∧
      ∀ j : Nat, j < 3 → (j : Int) ≠ ((3 : Nat) : Int) + 1 + (-2) →
        (SmartArray.cells a1)[j]? =
          (SmartArray.cells (⟨some [some 1, some 2, some 3], 3⟩ : SmartArray Int))[j]? :=
  C6_amended (⟨some [some 1, some 2, some 3], 3⟩ : SmartArray Int) 99 (-2) (by decide) (by decide)
    (by decide) (by decide) (by decide)

/-- C3 amended: `to_arr` validates its count with the same bounds check as
an index, so requesting the full length raises IndexOutOfBounds (and frees
the buffer); only counts `c < length` succeed, returning the first `c`
elements.  Feeding those `c` elements to `from_arr` on a fresh
(default-constructed) container crashes — its `resize` copies from a null
`m_data` — so the seed container must already own a buffer (e.g. the sized
constructor), in which case `from_arr` reproduces exactly those `c`
elements with length `c`. -/
theorem C3_amended {T : Type} [Inhabited T] (vals : List T) (c : Nat)
    (hc0 : 0 < c) (hc : c < vals.length) (hL : vals.length < 2 ^ 31) :
    SmartArray.to_arr (SmartArray.ofList vals) (vals.length : Int) =
      ToArrOutcome.indexError ⟨none, vals.length⟩ ∧
    SmartArray.to_arr (SmartArray.ofList vals) (c : Int) =
      ToArrOutcome.ok (some ((vals.take c).map some)) (SmartArray.ofList vals) ∧
    SmartArray.from_arr (⟨none, 0⟩ : SmartArray T) (vals.take c) = Outcome.fatal ∧
    SmartArray.from_arr (SmartArray.sizedCtor c) (vals.take c) =
      Outcome.ok ⟨some ((vals.take c).map some), c⟩ := by
  have htl : (vals.take c).length = c := by
    rw [List.length_take]
    omega
  refine ⟨?_, ?_, ?_, ?_⟩
  · have hcf : checkFails vals.length (vals.length : Int) = true :=
      checkFails_true _ _ (by omega) hL (by omega) (by omega) (Or.inl (le_refl _))
    simp [SmartArray.to_arr, SmartArray.ofList, hcf]
  · have hcf : checkFails vals.length (c : Int) = false :=
      checkFails_false _ _ hL (by omega) (by omega)
    simp [SmartArray.to_arr, hcf, SmartArray.ofList, show ¬ ((c : Int) = 0) from by omega,
      show ¬ ((c : Int) < 0) from by omega, show (0 : Int) ≤ (c : Int) from by omega,
      Int.toNat_natCast, List.map_take]
    exact readList_eq_take (vals.map some) (by rw [List.length_map]; omega)
  · simp [SmartArray.from_arr, SmartArray.resize, htl, show ¬ (c = 0) from by omega]
  · have hrl : readList (List.replicate c (some (default : T))) c =
        List.replicate c (some (default : T)) := by
      have := readList_full (List.replicate c (some (default : T)))
      rwa [List.length_replicate] at this
    simp only [SmartArray.from_arr, SmartArray.resize, SmartArray.sizedCtor, htl,
      if_neg (show ¬ (c = 0) from by omega), hrl]
    rw [storeList_full _ _ (by rw [List.length_map, htl, List.length_replicate])]

/-- C3 witness: the amended claim at the container `{1, 2}` with count 1. -/
theorem C3_witness :
    SmartArray.to_arr (SmartArray.ofList [(1 : Int), 2]) ((2 : Nat) : Int) =
      ToArrOutcome.indexError ⟨none, 2⟩ ∧
    SmartArray.to_arr (SmartArray.ofList [(1 : Int), 2]) ((1 : Nat) : Int) =
      ToArrOutcome.ok (some (([(1 : Int), 2].take 1).map some)) (SmartArray.ofList [(1 : Int), 2]) ∧
    SmartArray.from_arr (⟨none, 0⟩ : SmartArray Int) ([(1 : Int), 2].take 1) = Outcome.fatal ∧
    SmartArray.from_arr (SmartArray.sizedCtor 1) ([(1 : Int), 2].take 1) =
      Outcome.ok ⟨some (([(1 : Int), 2].take 1).map some), 1⟩ :=
  C3_amended [(1 : Int), 2] 1 (by decide) (by decide) (by decide)

/-- C3 counterexample: on the one-element container `{5}`, `to_arr(1)` —
asking for the full length — raises IndexOutOfBounds (the count is bounds
checked like an index, for which `1` is out of range) instead of
succeeding, refuting the round-trip claim at its first step. -/
theorem C3_counterexample :
    SmartArray.to_arr (⟨some [some 5], 1⟩ : SmartArray Int) 1 =
      ToArrOutcome.indexError ⟨none, 1⟩ := by decide

/-- C4 amended: `operator+` copies `old_length` (the FIRST operand's
length) cells of `b`, not `b.length` of them (SmartArray.h line 165).  For
`0 < a.length <= b.length` the concatenation succeeds with length
`a.length + b.length`: the first `a.length` cells are preserved, the next
`a.length` cells receive `b`'s first `a.length` elements, and any cells
from position `2 * a.length` on are left indeterminate — so the result is
`a ++ b` exactly when the lengths are equal (the spec's concrete scenario).
When `a.length > b.length` the copy writes past the new buffer (undefined
behavior).  `b` is only ever read. -/
theorem C4_amended {T : Type} (a b : SmartArray T) (hwa : a.Wf) (hwb : b.Wf)
    (h0 : 0 < a.length) (hle : a.length ≤ b.length) :
    ∃ c, SmartArray.opPlus a b = Outcome.ok c ∧ c.length = a.length + b.length ∧
      (∀ j : Nat, j < a.length → (SmartArray.cells c)[j]? = (SmartArray.cells a)[j]?) ∧
      (∀ j : Nat, j < a.length →
        (SmartArray.cells c)[a.length + j]? = (SmartArray.cells b)[j]?) ∧
      (∀ j : Nat, 2 * a.length ≤ j → j < a.length + b.length →
        (SmartArray.cells c)[j]? = some none) := by
  obtain ⟨abuf, hma, hlena, hcellsa⟩ := wf_buf hwa h0
  obtain ⟨bbuf, hmb, hlenb, hcellsb⟩ := wf_buf hwb (by omega)
  obtain ⟨res, hstore, hreslen, hresget⟩ :=
    storeList_total (readList bbuf a.length) (readList abuf (a.length + b.length)) a.length
      (by rw [readList_length, readList_length]; omega)
  refine ⟨⟨some res, a.length + b.length⟩, ?_, rfl, ?_, ?_, ?_⟩
  · simp [SmartArray.opPlus, SmartArray.resize, hma, hmb,
      show ¬ (a.length + b.length = 0) from by omega,
      show ¬ (a.length = 0) from by omega, hstore]
  · intro j hj
    show res[j]? = (SmartArray.cells a)[j]?
    rw [hresget j, if_neg (by rw [readList_length]; omega),
      readList_getElem? abuf (by omega), hcellsa,
      List.getElem?_eq_getElem (by omega : j < abuf.length)]
    simp
  · intro j hj
    show res[a.length + j]? = (SmartArray.cells b)[j]?
    rw [hresget (a.length + j), if_pos (by rw [readList_length]; omega),
      show a.length + j - a.length = j from by omega,
      readList_getElem? bbuf hj, hcellsb,
      List.getElem?_eq_getElem (by omega : j < bbuf.length)]
    simp
  · intro j hj1 hj2
    show res[j]? = some none
    rw [hresget j, if_neg (by rw [readList_length]; omega),
      readList_getElem? abuf (by omega),
      List.getElem?_eq_none (by omega : abuf.length ≤ j)]
    rfl

/-- C4 counterexample: with `a = {1, 2}` (length 2) and
`b = {10, 20, 30}` (length 3), `a + b` yields `{1, 2, 10, 20, junk}`: only
`a.length = 2` elements of `b` are copied, the final cell stays
indeterminate and `b`'s last element 30 never arrives, refuting the claim
that the last `b.length` cells equal `b`. -/
theorem C4_counterexample :
    SmartArray.opPlus (⟨some [some 1, some 2], 2⟩ : SmartArray Int)
      ⟨some [some 10, some 20, some 30], 3⟩ =
      Outcome.ok ⟨some [some 1, some 2, some 10, some 20, none], 5⟩ ∧
    (SmartArray.cells (⟨some [some 1, some 2, some 10, some 20, none], 5⟩ : SmartArray Int))[4]? ≠
      some (some 30) := by
  constructor
  · decide
  · decide

/-- C4 witness: the amended claim at the spec scenario `{1, 2, 3}` and
`{10, 20, 30}` (equal lengths, so the result is exactly
`{1, 2, 3, 10, 20, 30}`). -/
theorem C4_witness :
    ∃ c, SmartArray.opPlus (⟨some [some 1, some 2, some 3], 3⟩ : SmartArray Int)
      ⟨some [some 10, some 20, some 30], 3⟩ = Outcome.ok c ∧ c.length = 3 + 3 ∧
      (∀ j : Nat, j < 3 → (SmartArray.cells c)[j]? =
        (SmartArray.cells (⟨some [some 1, some 2, some 3], 3⟩ : SmartArray Int))[j]?) ∧
      (∀ j : Nat, j < 3 → (SmartArray.cells c)[3 + j]? =
        (SmartArray.cells (⟨some [some 10, some 20, some 30], 3⟩ : SmartArray Int))[j]?) ∧
      (∀ j : Nat, 2 * 3 ≤ j → j < 3 + 3 → (SmartArray.cells c)[j]? = some none) :=
  C4_amended (⟨some [some 1, some 2, some 3], 3⟩ : SmartArray Int)
    (⟨some [some 10, some 20, some 30], 3⟩ : SmartArray Int)
    (by decide) (by decide) (by decide) (by decide)

/-- C5: the `std::copy(m_data, m_data + new_sz, arr)` of `resize`
(SmartArray.h line 29) reads `new_sz` cells from the old buffer — offsets
`[0, 1]` when growing a one-element container to two — so it reads offset
1, beyond the old length 1, and the number of cells read is 2, not
`min(old_length, new_length) = 1` as the claim states; the cell read past
the end is indeterminate in the result.  The observable prefix is still
preserved. -/
theorem C5_code_bug :
    SmartArray.resizeReads 2 = [0, 1] ∧
    (SmartArray.resizeReads 2).length ≠ min 1 2 ∧
    1 ∈ SmartArray.resizeReads 2 ∧ ¬ (1 < 1) ∧
    SmartArray.resize (⟨some [some 7], 1⟩ : SmartArray Int) 2 =
      Outcome.ok ⟨some [some 7, none], 2⟩ := by decide

/-- The reverse loop of `SmartArrayReverse::reverse` terminates without
tripping a bounds check (every `buffer[-i-1]` and `iter[i]` access is in
range) and fills `buffer[j]` with `iter[length - 1 - j]` for every written
position. -/
theorem revLoopAux_spec {T : Type} (iterBuf : List (Option T)) (L : Nat)
    (hiter : iterBuf.length = L) (hL : L < 2 ^ 31) :
    ∀ (r i : Nat) (buf : List (Option T)), buf.length = L → i + r = L →
    ∃ res, SmartArray.revLoopAux iterBuf buf i r = some res ∧ res.length = L ∧
      ∀ j : Nat, j < L → res[j]? =
        if j < r then some ((iterBuf[L - 1 - j]?).join) else buf[j]? := by
  intro r
  induction r with
  | zero =>
    intro i buf hbuf _
    exact ⟨buf, rfl, hbuf, fun j _ => by rw [if_neg (by omega)]⟩
  | succ r ih =>
    intro i buf hbuf hir
    have hc1 : checkFails buf.length (-((i : Int) + 1)) = false := by
      rw [hbuf]
      exact checkFails_false L _ hL (by omega) (by omega)
    have hc2 : checkFails iterBuf.length (i : Int) = false := by
      rw [hiter]
      exact checkFails_false L _ hL (by omega) (by omega)
    obtain ⟨res, h1, h2, h3⟩ := ih (i + 1)
      (buf.set ((buf.length : Int) + -((i : Int) + 1)).toNat ((iterBuf[i]?).join))
      (by rw [List.length_set, hbuf]) (by omega)
    refine ⟨res, ?_, h2, ?_⟩
    · rw [SmartArray.revLoopAux, hc1, hc2]
      simp only [Bool.false_eq_true, if_false]
      rw [if_pos (by omega : -((i : Int) + 1) < 0),
        if_pos (by constructor <;> [omega; (rw [hbuf]; omega)])]
      exact h1
    · intro j hj
      rw [h3 j hj]
      have hwidx : ((buf.length : Int) + -((i : Int) + 1)).toNat = L - 1 - i := by
        rw [hbuf]; omega
      by_cases hjr : j < r
      · rw [if_pos hjr, if_pos (by omega)]
      · by_cases hje : j = r
        · subst hje
          rw [if_neg (by omega), if_pos (by omega), hwidx,
            show L - 1 - i = j from by omega,
            List.getElem?_set, if_pos rfl, if_pos (by omega : j < buf.length),
            show L - 1 - j = i from by omega]
        · rw [if_neg (by omega), if_neg (by omega), hwidx,
            List.getElem?_set_ne (by omega)]

/-- C7: constructing a `SmartArrayReverse` over a well-formed container
succeeds; the view's `iter` has the source's length and its cell at every
position `i` is the source's cell at `length - 1 - i` (a `{1,2,3}` source
iterates as `3,2,1`).  The construction only reads the source: the
by-value constructor parameter and the `iter` member are built with the
deep copy constructor, so the source's length and element order are left
untouched (the model's construction function does not modify its
argument; claim C10's heap-level theorem covers the absence of aliasing). -/
theorem C7_reverse {T : Type} [Inhabited T] (src : SmartArray T) (hwf : src.Wf)
    (hL : src.length < 2 ^ 31) :
    ∃ v, SmartArray.reverseCtor src = some v ∧ v.length = src.length ∧
      ∀ i : Nat, i < src.length →
        (SmartArray.cells v)[i]? = (SmartArray.cells src)[src.length - 1 - i]? := by
  by_cases h0 : src.length = 0
  · obtain ⟨m, L⟩ := src
    simp only at h0
    subst h0
    match m with
    | none => exact ⟨⟨some [], 0⟩, rfl, rfl, fun i hi => by simp at hi⟩
    | some buf =>
      have hb : buf = [] := by
        have := hwf
        unfold SmartArray.Wf at this
        simp [SmartArray.cells] at this
        exact this
      subst hb
      exact ⟨⟨some [], 0⟩, rfl, rfl, fun i hi => by simp at hi⟩
  · obtain ⟨buf, hm, hlen, hcells⟩ := wf_buf hwf (by omega)
    have hcopy : SmartArray.copyCtor src = some ⟨some buf, src.length⟩ := by
      simp only [SmartArray.copyCtor, hm]
      rw [← hlen, readList_full]
    have hcopy2 : SmartArray.copyCtor (⟨some buf, src.length⟩ : SmartArray T) =
        some ⟨some buf, src.length⟩ := by
      simp only [SmartArray.copyCtor]
      rw [← hlen, readList_full]
    obtain ⟨rbuf, hloop, hrlen, hrget⟩ :=
      revLoopAux_spec buf src.length hlen hL src.length 0
        (List.replicate src.length (some (default : T))) (List.length_replicate _ _) (by omega)
    refine ⟨⟨some rbuf, src.length⟩, ?_, rfl, ?_⟩
    · simp only [SmartArray.reverseCtor, hcopy, hcopy2, SmartArray.reverseMethod, hloop,
        storeList_full buf rbuf (by rw [hrlen, hlen])]
    · intro i hi
      show rbuf[i]? = (SmartArray.cells src)[src.length - 1 - i]?
      rw [hrget i hi, if_pos hi, hcells,
        List.getElem?_eq_getElem (by omega : src.length - 1 - i < buf.length)]
      simp

/-- C7 witness: the reversed view over the concrete container `{1, 2, 3}`. -/
theorem C7_witness :
    ∃ v, SmartArray.reverseCtor (⟨some [some 1, some 2, some 3], 3⟩ : SmartArray Int) = some v ∧
      v.length = 3 ∧
      ∀ i : Nat, i < 3 →
        (SmartArray.cells v)[i]? =
          (SmartArray.cells (⟨some [some 1, some 2, some 3], 3⟩ : SmartArray Int))[3 - 1 - i]? :=
  C7_reverse (⟨some [some 1, some 2, some 3], 3⟩ : SmartArray Int) (by decide) (by decide)

/-- Allocating a fresh buffer does not change any existing allocation. -/
theorem Heap.read_alloc {T : Type} (h : Heap T) (cells : List (Option T)) {vp : Nat}
    (hvp : vp < h.bufs.length) : ((h.alloc cells).1).read vp = h.read vp := by
  simp [Heap.read, Heap.alloc, List.getElem?_append_left hvp]

/-- Reading the allocation just created yields its cells. -/
theorem Heap.read_alloc_self {T : Type} (h : Heap T) (cells : List (Option T)) :
    ((h.alloc cells).1).read (h.alloc cells).2 = some cells := by
  simp [Heap.read, Heap.alloc, List.getElem?_concat_length]

/-- Freeing a different allocation does not change what `vp` holds. -/
theorem Heap.read_free_ne {T : Type} (h : Heap T) {q vp : Nat} (hne : q ≠ vp) :
    (h.free (some q)).read vp = h.read vp := by
  simp [Heap.read, Heap.free, List.getElem?_set_ne hne]

/-- Writing a different allocation does not change what `vp` holds. -/
theorem Heap.read_write_ne {T : Type} (h : Heap T) (c : List (Option T)) {q vp : Nat}
    (hne : q ≠ vp) : (h.write q c).read vp = h.read vp := by
  simp [Heap.read, Heap.write, List.getElem?_set_ne hne]

/-- Reading back an allocation just written. -/
theorem Heap.read_write_self {T : Type} (h : Heap T) (c : List (Option T)) {p : Nat}
    (hp : p < h.bufs.length) : (h.write p c).read p = some c := by
  simp [Heap.read, Heap.write, List.getElem?_set, hp]

/-- Freeing keeps the number of allocation slots. -/
theorem Heap.length_free {T : Type} (h : Heap T) (p : Option Nat) :
    (h.free p).bufs.length = h.bufs.length := by
  cases p <;> simp [Heap.free]

/-- Writing keeps the number of allocation slots. -/
theorem Heap.length_write {T : Type} (h : Heap T) (p : Nat) (c : List (Option T)) :
    (h.write p c).bufs.length = h.bufs.length := by
  simp [Heap.write]

/-- Allocating appends exactly one slot. -/
theorem Heap.length_alloc {T : Type} (h : Heap T) (c : List (Option T)) :
    ((h.alloc c).1).bufs.length = h.bufs.length + 1 := by
  simp [Heap.alloc]

/-- A readable allocation id is inside the heap. -/
theorem Heap.read_lt {T : Type} {h : Heap T} {p : Nat} {buf : List (Option T)}
    (hr : h.read p = some buf) : p < h.bufs.length := by
  by_contra hge
  rw [Heap.read, List.getElem?_eq_none (by omega)] at hr
  simp at hr

/-- `resize` only frees/replaces the container's own allocation and
allocates fresh ids, so a foreign allocation survives it untouched. -/
theorem hResize_out {T : Type} {vp : Nat} {snap : List (Option T)} (h : Heap T) (a : HArray T)
    (n : Nat) (hf : Foreign vp snap h a) : OutForeign vp snap (hResize h a n) := by
  obtain ⟨hlt, hread, hne⟩ := hf
  rw [hResize]
  by_cases hn : n = 0
  · rw [if_pos hn]
    exact ⟨hlt, hread, by simp⟩
  · rw [if_neg hn]
    cases hp : a.ptr with
    | none => simp only; trivial
    | some p =>
      simp only
      cases hrp : h.read p with
      | none => simp only; trivial
      | some buf =>
        simp only
        have hpne : p ≠ vp := fun he => hne (by rw [hp, he])
        refine ⟨?_, ?_, ?_⟩
        · rw [Heap.length_free, Heap.length_alloc]
          omega
        · rw [Heap.read_free_ne _ hpne, Heap.read_alloc _ _ hlt]
          exact hread
        · simp only [Heap.alloc, ne_eq, Option.some.injEq]
          omega

/-- `put` (and so `append`) touches only the container's own allocations:
a foreign allocation survives, also on the buffer-freeing error path. -/
theorem hPut_out {T : Type} {vp : Nat} {snap : List (Option T)} (h : Heap T) (a : HArray T)
    (v : T) (i : Int) (hf : Foreign vp snap h a) : OutForeign vp snap (hPut h a v i) := by
  rw [hPut]
  by_cases hc : checkFails a.length i
  · rw [if_pos hc]
    refine ⟨?_, ?_⟩
    · rw [Heap.length_free]
      exact hf.1
    · cases hp : a.ptr with
      | none => exact hf.2.1
      | some p =>
        have hpne : p ≠ vp := fun he => hf.2.2 (by rw [hp, he])
        rw [Heap.read_free_ne _ hpne]
        exact hf.2.1
  · rw [if_neg hc]
    have hres := hResize_out h a (growSize a.length) hf
    cases hr : hResize h a (growSize a.length) with
    | fatal => simp only; trivial
    | indexError h1 a1 => rw [hr] at hres; simp only; exact hres
    | ok h1 a1 =>
      rw [hr] at hres
      obtain ⟨hlt1, hread1, hne1⟩ := hres
      simp only
      cases hp1 : a1.ptr with
      | none => simp only; trivial
      | some p =>
        simp only
        cases hrp : h1.read p with
        | none => simp only; trivial
        | some buf =>
          simp only
          have hpne : p ≠ vp := fun he => hne1 (by rw [hp1, he])
          by_cases hidx : 0 ≤ (if i < 0 then (a.length : Int) + 1 + i else i) ∧
              (if i < 0 then (a.length : Int) + 1 + i else i).toNat < buf.length
          · rw [if_pos hidx]
            exact ⟨by rw [Heap.length_write]; exact hlt1,
              by rw [Heap.read_write_ne _ _ hpne]; exact hread1, hne1⟩
          · rw [if_neg hidx]
            trivial

/-- `pop` touches only the container's own allocations. -/
theorem hPop_out {T : Type} {vp : Nat} {snap : List (Option T)} (h : Heap T) (a : HArray T)
    (i : Int) (hf : Foreign vp snap h a) : OutForeign vp snap (hPop h a i) := by
  rw [hPop]
  by_cases hc : checkFails a.length i
  · rw [if_pos hc]
    refine ⟨?_, ?_⟩
    · rw [Heap.length_free]
      exact hf.1
    · cases hp : a.ptr with
      | none => exact hf.2.1
      | some p =>
        have hpne : p ≠ vp := fun he => hf.2.2 (by rw [hp, he])
        rw [Heap.read_free_ne _ hpne]
        exact hf.2.1
  · rw [if_neg hc]
    by_cases h0 : a.length = 0
    · rw [if_pos h0]
      trivial
    · rw [if_neg h0]
      exact hResize_out h a (a.length - 1) hf

/-- `from_arr` touches only the container's own allocations. -/
theorem hFromArr_out {T : Type} {vp : Nat} {snap : List (Option T)} (h : Heap T) (a : HArray T)
    (l : List T) (hf : Foreign vp snap h a) : OutForeign vp snap (hFromArr h a l) := by
  rw [hFromArr]
  have hres := hResize_out h a l.length hf
  cases hr : hResize h a l.length with
  | fatal => simp only; trivial
  | indexError h1 a1 => rw [hr] at hres; simp only; exact hres
  | ok h1 a1 =>
    rw [hr] at hres
    obtain ⟨hlt1, hread1, hne1⟩ := hres
    simp only
    cases hp1 : a1.ptr with
    | none =>
      simp only
      by_cases hl : l.length = 0
      · rw [if_pos hl]
        exact ⟨hlt1, hread1, hne1⟩
      · rw [if_neg hl]
        trivial
    | some p =>
      simp only
      cases hrp : h1.read p with
      | none => simp only; trivial
      | some buf =>
        simp only
        have hpne : p ≠ vp := fun he => hne1 (by rw [hp1, he])
        cases hst : storeList buf 0 (l.map some) with
        | none => simp only; trivial
        | some buf2 =>
          simp only
          exact ⟨by rw [Heap.length_write]; exact hlt1,
            by rw [Heap.read_write_ne _ _ hpne]; exact hread1, hne1⟩

/-- `operator+` writes only the first operand's allocations and reads the
second, so a foreign allocation survives. -/
theorem hOpPlus_out {T : Type} {vp : Nat} {snap : List (Option T)} (h : Heap T) (a b : HArray T)
    (hf : Foreign vp snap h a) : OutForeign vp snap (hOpPlus h a b) := by
  rw [hOpPlus]
  have hres := hResize_out h a (a.length + b.length) hf
  cases hr : hResize h a (a.length + b.length) with
  | fatal => simp only; trivial
  | indexError h1 a1 => rw [hr] at hres; simp only; exact hres
  | ok h1 a1 =>
    rw [hr] at hres
    obtain ⟨hlt1, hread1, hne1⟩ := hres
    simp only
    by_cases h0 : a.length = 0
    · rw [if_pos h0]
      exact ⟨hlt1, hread1, hne1⟩
    · rw [if_neg h0]
      cases hbp : b.ptr with
      | none => simp only; trivial
      | some bp =>
        simp only
        cases hrbp : h1.read bp with
        | none => simp only; trivial
        | some bbuf =>
          simp only
          cases hp1 : a1.ptr with
          | none => simp only; trivial
          | some p =>
            simp only
            cases hrp : h1.read p with
            | none => simp only; trivial
            | some buf =>
              simp only
              have hpne : p ≠ vp := fun he => hne1 (by rw [hp1, he])
              cases hst : storeList buf a.length (readList bbuf a.length) with
              | none => simp only; trivial
              | some buf2 =>
                simp only
                exact ⟨by rw [Heap.length_write]; exact hlt1,
                  by rw [Heap.read_write_ne _ _ hpne]; exact hread1, hne1⟩

/-- Every mutation of claim C10 preserves a foreign allocation. -/
theorem applyMut_out {T : Type} {vp : Nat} {snap : List (Option T)} (h : Heap T) (a : HArray T)
    (m : HMut T) (hf : Foreign vp snap h a) : OutForeign vp snap (applyMut h a m) := by
  cases m with
  | mput v i => exact hPut_out h a v i hf
  | mappend v => exact hPut_out h a v (-1) hf
  | mpop i => exact hPop_out h a i hf
  | mfrom l => exact hFromArr_out h a l hf
  | mconcat b => exact hOpPlus_out h a b hf

/-- Any sequence of mutations of the source leaves a foreign allocation's
cells untouched, however far execution gets. -/
theorem runMuts_foreign {T : Type} {vp : Nat} {snap : List (Option T)} :
    ∀ (ms : List (HMut T)) (h : Heap T) (a : HArray T), Foreign vp snap h a →
    Heap.read (runMuts h a ms).1 vp = some snap := by
  intro ms
  induction ms with
  | nil => intro h a hf; exact hf.2.1
  | cons m ms ih =>
    intro h a hf
    have hout := applyMut_out h a m hf
    rw [runMuts]
    cases hm : applyMut h a m with
    | ok h1 a1 =>
      rw [hm] at hout
      exact ih h1 a1 hout
    | indexError h1 a1 =>
      rw [hm] at hout
      exact hout.2
    | fatal => exact hf.2.1

/-- Cell `j` of the reversed sequence is the source's cell `L - 1 - j`. -/
theorem revCells_getElem? {T : Type} (buf : List (Option T)) (L : Nat) {j : Nat} (hj : j < L) :
    (revCells buf L)[j]? = some ((buf[L - 1 - j]?).join) := by
  simp [revCells, List.getElem?_map, List.getElem?_range hj]

/-- The reversed sequence has length `L`. -/
theorem revCells_length {T : Type} (buf : List (Option T)) (L : Nat) :
    (revCells buf L).length = L := by
  simp [revCells]

/-- The copy constructor on a live well-formed source allocates a fresh
buffer holding a copy of the source's cells — it never shares the
source's allocation. -/
theorem hCopyCtor_ok {T : Type} (h : Heap T) (src : HArray T) (sp : Nat)
    (sbuf : List (Option T)) (hp : src.ptr = some sp) (hr : h.read sp = some sbuf)
    (hw : sbuf.length = src.length) :
    hCopyCtor h src = some ((h.alloc sbuf).1, ⟨some (h.alloc sbuf).2, src.length⟩) := by
  simp only [hCopyCtor, hp, hr]
  rw [show readList sbuf src.length = sbuf from by rw [← hw]; exact readList_full sbuf]

/-- `reverse()` on a live `iter` succeeds: it leaves `iter` pointing at
its own (rewritten, now reversed) allocation and frees the temporary
buffer. -/
theorem hReverseMethod_ok {T : Type} [Inhabited T] (h : Heap T) (iter : HArray T) (ip : Nat)
    (ibuf : List (Option T)) (hp : iter.ptr = some ip) (hri : h.read ip = some ibuf)
    (hwi : ibuf.length = iter.length) (hL : iter.length < 2 ^ 31) :
    ∃ rbuf, hReverseMethod h iter =
      some ((((h.alloc (List.replicate iter.length (some default))).1).write ip rbuf).free
        (some (h.alloc (List.replicate iter.length (some default))).2), iter) ∧
      rbuf.length = iter.length ∧
      ∀ j : Nat, j < iter.length → rbuf[j]? = some ((ibuf[iter.length - 1 - j]?).join) := by
  obtain ⟨rbuf, hloop, hrlen, hrget⟩ := revLoopAux_spec ibuf iter.length hwi hL
    iter.length 0 (List.replicate iter.length (some default)) (List.length_replicate _ _)
    (by omega)
  refine ⟨rbuf, ?_, hrlen, fun j hj => by rw [hrget j hj, if_pos hj]⟩
  rw [hReverseMethod]
  simp only [hp]
  rw [Heap.read_alloc _ _ (Heap.read_lt hri), hri]
  simp only [hloop, storeList_full ibuf rbuf (by rw [hrlen, hwi])]

/-- C10: constructing a `SmartArrayReverse` over a live source container
produces a view whose `iter` owns a FRESH allocation — distinct from the
source's — holding the reversed snapshot, and after ANY subsequent
sequence of mutations of the source (`put`/`append`, `pop`, `from_arr`,
`operator+`), the view's allocation is still live and still holds exactly
that snapshot: the view is a deep copy, never aliasing the source, so
later source mutations cannot affect it. -/
theorem C10_frame {T : Type} [Inhabited T] (h : Heap T) (src : HArray T) (sp : Nat)
    (sbuf : List (Option T)) (muts : List (HMut T))
    (hp : src.ptr = some sp) (hr : Heap.read h sp = some sbuf)
    (hw : sbuf.length = src.length) (hbnd : src.length < 2 ^ 31) :
    ∃ h2 view vp, hReverseCtor h src = some (h2, view) ∧
      view.ptr = some vp ∧ view.length = src.length ∧ src.ptr ≠ some vp ∧
      Heap.read h2 vp = some (revCells sbuf src.length) ∧
      Heap.read (runMuts h2 src muts).1 vp = some (revCells sbuf src.length) := by
  have hsp : sp < h.bufs.length := Heap.read_lt hr
  have hcc1 := hCopyCtor_ok h src sp sbuf hp hr hw
  have hcc2 := hCopyCtor_ok ((h.alloc sbuf).1) ⟨some (h.alloc sbuf).2, src.length⟩
    (h.alloc sbuf).2 sbuf rfl (Heap.read_alloc_self h sbuf) hw
  obtain ⟨rbuf, hrm, hrlen, hrget⟩ := hReverseMethod_ok (((h.alloc sbuf).1).alloc sbuf).1
    ⟨some (((h.alloc sbuf).1).alloc sbuf).2, src.length⟩ (((h.alloc sbuf).1).alloc sbuf).2 sbuf
    rfl (Heap.read_alloc_self ((h.alloc sbuf).1) sbuf) hw hbnd
  have hrlen2 : rbuf.length = src.length := hrlen
  have hrbuf : rbuf = revCells sbuf src.length := by
    apply List.ext_getElem?
    intro j
    by_cases hj : j < src.length
    · rw [hrget j hj, revCells_getElem? sbuf src.length hj]
    · rw [List.getElem?_eq_none (by omega : rbuf.length ≤ j),
        List.getElem?_eq_none (by rw [revCells_length]; omega)]
  subst hrbuf
  have hc1len : (h.alloc sbuf).2 = h.bufs.length := rfl
  have hc2len : (((h.alloc sbuf).1).alloc sbuf).2 = h.bufs.length + 1 := by
    simp [Heap.alloc]
  have hsplt : sp < h.bufs.length + 1 := by omega
  refine ⟨(((((h.alloc sbuf).1.alloc sbuf).1.alloc
        (List.replicate src.length (some default))).1.write
        (((h.alloc sbuf).1).alloc sbuf).2 (revCells sbuf src.length)).free
        (some ((((h.alloc sbuf).1.alloc sbuf).1.alloc
          (List.replicate src.length (some default))).2))).free (some (h.alloc sbuf).2),
    ⟨some (((h.alloc sbuf).1).alloc sbuf).2, src.length⟩,
    (((h.alloc sbuf).1).alloc sbuf).2, ?_, rfl, rfl, ?_, ?_, ?_⟩
  · rw [hReverseCtor]
    simp only [hcc1, hcc2, hrm]
  · rw [hp, hc2len]
    simp only [ne_eq, Option.some.injEq]
    omega
  · rw [Heap.read_free_ne _ (by rw [hc1len, hc2len]; omega),
      Heap.read_free_ne _ (by
        show ((((h.alloc sbuf).1).alloc sbuf).1.alloc
          (List.replicate src.length (some default))).2 ≠ (((h.alloc sbuf).1).alloc sbuf).2
        rw [hc2len]
        show (((h.alloc sbuf).1).alloc sbuf).1.bufs.length ≠ h.bufs.length + 1
        rw [Heap.length_alloc, Heap.length_alloc]
        omega),
      Heap.read_write_self _ _ (by
        rw [hc2len, Heap.length_alloc, Heap.length_alloc, Heap.length_alloc]
        omega)]
  · apply runMuts_foreign
    refine ⟨?_, ?_, ?_⟩
    · rw [Heap.length_free, Heap.length_free, Heap.length_write, Heap.length_alloc,
        Heap.length_alloc, Heap.length_alloc, hc2len]
      omega
    · rw [Heap.read_free_ne _ (by rw [hc1len, hc2len]; omega),
        Heap.read_free_ne _ (by
          show ((((h.alloc sbuf).1).alloc sbuf).1.alloc
            (List.replicate src.length (some default))).2 ≠ (((h.alloc sbuf).1).alloc sbuf).2
          rw [hc2len]
          show (((h.alloc sbuf).1).alloc sbuf).1.bufs.length ≠ h.bufs.length + 1
          rw [Heap.length_alloc, Heap.length_alloc]
          omega),
        Heap.read_write_self _ _ (by
          rw [hc2len, Heap.length_alloc, Heap.length_alloc, Heap.length_alloc]
          omega)]
    · rw [hp, hc2len]
      simp only [ne_eq, Option.some.injEq]
      omega

/-- C10 witness: a concrete heap holding `{1, 2, 3}`, with an append and a
pop mutating the source after the view is built. -/
theorem C10_witness :
    ∃ h2 view vp,
      hReverseCtor (⟨[some [some 1, some 2, some 3]]⟩ : Heap Int) ⟨some 0, 3⟩ =
        some (h2, view) ∧
      view.ptr = some vp ∧ view.length = (⟨some 0, 3⟩ : HArray Int).length ∧
      (⟨some 0, 3⟩ : HArray Int).ptr ≠ some vp ∧
      Heap.read h2 vp = some (revCells [some 1, some 2, some 3]
        (⟨some 0, 3⟩ : HArray Int).length) ∧
      Heap.read (runMuts h2 ⟨some 0, 3⟩ [HMut.mappend 99, HMut.mpop (-1)]).1 vp =
        some (revCells [some 1, some 2, some 3] (⟨some 0, 3⟩ : HArray Int).length) :=
  C10_frame (⟨[some [some 1, some 2, some 3]]⟩ : Heap Int) ⟨some 0, 3⟩ 0
    [some 1, some 2, some 3] [HMut.mappend 99, HMut.mpop (-1)] rfl rfl rfl (by decide)
